import Mathlib

/-!
Verification of `main.py` of the restaurant-review aggregation program.

The three deterministic functions of the source — `sanitize`,
`fetch_restaurant_data` and `calculate_overall_score` — are embedded
shallowly: Python strings become `String`, the review store becomes its
list of lines, Python floats become real numbers, the single-entry result
dicts become pairs, and an uncaught exception becomes `none`.  The
orchestration in `main` is embedded as static chat-item data together with
a chat runner whose conversational engine is an abstract oracle.
-/

namespace RestaurantReviews

/-- Model of the Python regex class `\s` on the ASCII range: the characters
removed by `re.compile(r'\s+').sub('', name)` and the characters stripped
by `str.strip()`. -/
def isPySpace (c : Char) : Bool :=
  c = ' ' ∨ c = '\t' ∨ c = '\n' ∨ c = '\x0d' ∨ c = '\x0b' ∨ c = '\x0c'

/-- Model of Python `str.strip()`: drop leading and trailing whitespace. -/
def pyStrip (l : List Char) : List Char :=
  ((l.dropWhile isPySpace).reverse.dropWhile isPySpace).reverse

/-- Membership in `set(string.ascii_lowercase + string.digits)`:
lowercase ASCII letters (code points 97-122) and digits (48-57). -/
def isValidCodeChar (c : Char) : Bool :=
  (97 ≤ c.toNat ∧ c.toNat ≤ 122) ∨ (48 ≤ c.toNat ∧ c.toNat ≤ 57)

/-- `sanitize` from `main.py`: remove all whitespace, strip, lowercase
(`Char.toLower` models the ASCII action of `str.lower()`), keep only
lowercase letters and digits, strip the joined result again.
List-of-characters version. -/
def sanitizeL (l : List Char) : List Char :=
  pyStrip (((pyStrip (l.filter (fun c => !(isPySpace c)))).map Char.toLower).filter
    isValidCodeChar)

/-- `sanitize` on strings. -/
def sanitize (s : String) : String := String.mk (sanitizeL s.data)

/-- Model of `line.split('.', 1)` followed by the two-variable unpacking:
`none` when the line has no `.` (Python raises `ValueError`), otherwise the
text before and the text after the first `.`. -/
def splitFirstDot : List Char → Option (List Char × List Char)
  | [] => none
  | c :: cs =>
    if c = '.' then some ([], cs)
    else
      match splitFirstDot cs with
      | none => none
      | some (nm, rest) => some (c :: nm, rest)

/-- The loop of `fetch_restaurant_data` over the lines of
`restaurant-data.txt`: collects the stripped review fields of the lines
whose stripped name field sanitizes to `key`; `none` models the
`ValueError` raised on a line with no `.`. -/
def fetchLines (key : String) : List String → Option (List String)
  | [] => some []
  | line :: rest =>
    match splitFirstDot line.data with
    | none => none
    | some (namePart, reviewPart) =>
      let restaurant := String.mk (pyStrip namePart)
      let review := String.mk (pyStrip reviewPart)
      match fetchLines key rest with
      | none => none
      | some revs => some (if sanitize restaurant = key then review :: revs else revs)

/-- `fetch_restaurant_data` from `main.py`, with the contents of the
external review store passed explicitly as its list of lines.  The
single-entry dict `{restaurant_name: reviews}` is modelled as a pair;
`none` models an uncaught exception escaping the call. -/
def fetch_restaurant_data (restaurant_name : String) (store : List String) :
    Option (String × List String) :=
  (fetchLines (sanitize restaurant_name) store).map (fun revs => (restaurant_name, revs))

/-- Whether a store line contains the `.` separator. -/
def hasDot (line : String) : Bool := line.data.contains '.'

/-- Modelled from the spec (section 4.2): the ordered list of trimmed
review-text fields of exactly those lines whose trimmed name field
sanitizes like the query name. -/
def matchingReviews (restaurant_name : String) (store : List String) : List String :=
  store.filterMap (fun line =>
    match splitFirstDot line.data with
    | none => none
    | some (namePart, reviewPart) =>
      if sanitize (String.mk (pyStrip namePart)) = sanitize restaurant_name then
        some (String.mk (pyStrip reviewPart))
      else none)

/-- The accumulated loop sum of `calculate_overall_score`:
`SUM over i in range(N) of sqrt(food[i]^2 * service[i]) * (1/(N*sqrt(125))) * 10`
with `N = min(len(food_scores), len(customer_service_scores))`.  Python
floats are modelled by real numbers. -/
noncomputable def overallScoreSum (food_scores customer_service_scores : List Int) : ℝ :=
  ∑ i in Finset.range (min food_scores.length customer_service_scores.length),
    Real.sqrt (((food_scores.getD i 0 : ℤ) : ℝ) ^ 2 *
        ((customer_service_scores.getD i 0 : ℤ) : ℝ)) *
      (1 / ((min food_scores.length customer_service_scores.length : ℕ) * Real.sqrt 125)) * 10

/-- Python `round(x, 2)` modelled over the reals: rounding to the nearest
multiple of 1/100 (the half-even tie rule of Python is immaterial to the
claims, which never sit on a tie). -/
noncomputable def round2 (x : ℝ) : ℝ := ((round (x * 100) : ℤ) : ℝ) / 100

/-- `calculate_overall_score` from `main.py`: the single-entry dict
`{restaurant_name: overall_score}` is modelled as a pair. -/
noncomputable def calculate_overall_score (restaurant_name : String)
    (food_scores customer_service_scores : List Int) : String × ℝ :=
  (restaurant_name, round2 (overallScoreSum food_scores customer_service_scores))

/-- Modelled from the spec (section 4.3): the per-pair contribution
`sqrt(food_i^2 * service_i) * (1/(N*sqrt(125))) * 10`. -/
noncomputable def specContribution (N : ℕ) (p : Int × Int) : ℝ :=
  Real.sqrt ((p.1 : ℝ) ^ 2 * (p.2 : ℝ)) * (1 / ((N : ℝ) * Real.sqrt 125)) * 10

/-- Modelled from the spec (section 4.3): the rounded sum of the
contributions of the first N paired elements of the two score lists. -/
noncomputable def specScore (food_scores service_scores : List Int) : ℝ :=
  round2 (((food_scores.zip service_scores).map
    (specContribution (min food_scores.length service_scores.length))).sum)

/-- The four `ConversableAgent`s constructed in `main`. -/
inductive AgentName
  | entrypoint_agent
  | data_fetch_agent
  | review_analysis_agent
  | scoring_agent

/-- The two deterministic tools of the program. -/
inductive ToolName
  | fetch_restaurant_data
  | calculate_overall_score

/-- Tools each agent registers with `register_for_llm` (proposable in the
chats the agent is the recipient of). -/
def llmTools : AgentName → List ToolName
  | .data_fetch_agent => [.fetch_restaurant_data]
  | .scoring_agent => [.calculate_overall_score]
  | _ => []

/-- Tools each agent registers with `register_for_execution`. -/
def executionTools : AgentName → List ToolName
  | .entrypoint_agent => [.fetch_restaurant_data, .calculate_overall_score]
  | _ => []

/-- The `summary_method` option of a chat item. -/
inductive SummaryMethod
  | last_msg
  | reflection_with_llm

/-- One element of the list `main` passes to `initiate_chats`. -/
structure StageSpec where
  recipient : AgentName
  message : String
  max_turns : Nat
  max_consecutive_auto_reply : Option Nat
  clear_history : Option Bool
  summary_method : SummaryMethod

/-- First chat item of `main`: the retrieval chat with the data fetch
agent, seeded with the user query plus the fixed termination suffix. -/
def stage1 (user_query : String) : StageSpec :=
  { recipient := .data_fetch_agent
    message := user_query ++ ". Once you have fetched all the reviews of the restaurant, end the chat."
    max_turns := 2
    max_consecutive_auto_reply := none
    clear_history := some true
    summary_method := .last_msg }

/-- Second chat item of `main`: the chat with the review analysis agent. -/
def stage2 : StageSpec :=
  { recipient := .review_analysis_agent
    message := "These are the reviews for the restaurant"
    max_turns := 1
    max_consecutive_auto_reply := none
    clear_history := none
    summary_method := .last_msg }

/-- Third chat item of `main`: the aggregation chat with the scoring
agent. -/
def stage3 : StageSpec :=
  { recipient := .scoring_agent
    message := "These are the reviews for the restaurant. Once you get the overall score number just return that and end the chat."
    max_turns := 4
    max_consecutive_auto_reply := some 1
    clear_history := none
    summary_method := .last_msg }

/-- Fourth chat item of `main`: the entrypoint agent asked for the final
number. -/
def stage4 : StageSpec :=
  { recipient := .entrypoint_agent
    message := "What is the overall score of the restaurant. Answer only from the overall score number passed in the context."
    max_turns := 1
    max_consecutive_auto_reply := none
    clear_history := none
    summary_method := .last_msg }

/-- The list of four chat items passed to `initiate_chats` in `main`. -/
def mainChats (user_query : String) : List StageSpec :=
  [stage1 user_query, stage2, stage3, stage4]

/-- The outcome of one chat; only the summary escapes a stage. -/
structure ChatResult where
  summary : String

/-- `ConversableAgent.initiate_chats`, with the conversational engine
abstracted as an oracle mapping the results so far and the chat item to
the chat's result.  The chats run strictly in sequence. -/
def initiate_chats (oracle : List ChatResult → StageSpec → ChatResult) :
    List ChatResult → List StageSpec → List ChatResult
  | acc, [] => acc
  | acc, spec :: rest => initiate_chats oracle (acc ++ [oracle acc spec]) rest

/-- `main` from `main.py`: runs the four chats and prints
`result[-1].summary`; modelled as returning the printed summary string. -/
def main (oracle : List ChatResult → StageSpec → ChatResult)
    (user_query : String) : Option String :=
  (initiate_chats oracle [] (mainChats user_query)).getLast?.map ChatResult.summary

/-! ## Helper lemmas -/

theorem toLower_of_valid (c : Char) (h : isValidCodeChar c = true) :
    Char.toLower c = c := by
  unfold Char.toLower
  simp only [isValidCodeChar, decide_eq_true_eq] at h
  rw [if_neg]
  omega

theorem valid_not_space (c : Char) (h : isValidCodeChar c = true) :
    isPySpace c = false := by
  by_contra hc
  simp only [Bool.not_eq_false] at hc
  simp only [isPySpace, decide_eq_true_eq] at hc
  rcases hc with hc | hc | hc | hc | hc | hc <;> subst hc <;> exact absurd h (by decide)

theorem toLower_space_not_valid (c : Char) (h : isPySpace c = true) :
    isValidCodeChar (Char.toLower c) = false := by
  simp only [isPySpace, decide_eq_true_eq] at h
  rcases h with h | h | h | h | h | h <;> subst h <;> decide

theorem dropWhile_eq_self_of (p : Char → Bool) (l : List Char)
    (h : ∀ c ∈ l, p c = false) : l.dropWhile p = l := by
  cases l with
  | nil => rfl
  | cons c cs => simp [List.dropWhile_cons, h c (List.mem_cons_self c cs)]

theorem pyStrip_of_no_space (l : List Char) (h : ∀ c ∈ l, isPySpace c = false) :
    pyStrip l = l := by
  unfold pyStrip
  rw [dropWhile_eq_self_of _ _ h,
    dropWhile_eq_self_of _ _ (fun c hc => h c (List.mem_reverse.mp hc)),
    List.reverse_reverse]

/-- The whole `sanitize` pipeline collapses to a single map-then-filter:
the strips and the whitespace removal are subsumed by the final filter. -/
theorem sanitizeL_eq (l : List Char) :
    sanitizeL l = (l.map Char.toLower).filter isValidCodeChar := by
  unfold sanitizeL
  rw [pyStrip_of_no_space (l.filter (fun c => !(isPySpace c)))
      (by
        intro c hc
        simp only [List.mem_filter, Bool.not_eq_true'] at hc
        exact hc.2),
    pyStrip_of_no_space _
      (by
        intro c hc
        simp only [List.mem_filter] at hc
        exact valid_not_space c hc.2)]
  induction l with
  | nil => rfl
  | cons c cs ih =>
    by_cases hc : isPySpace c = true
    · simp [List.filter_cons, hc, toLower_space_not_valid c hc, ih]
    · simp only [Bool.not_eq_true] at hc
      simp [List.filter_cons, hc, ih]

theorem map_eq_self_of (f : Char → Char) (l : List Char) (h : ∀ c ∈ l, f c = c) :
    l.map f = l := by
  induction l with
  | nil => rfl
  | cons c cs ih =>
    simp [h c (List.mem_cons_self c cs), ih (fun x hx => h x (List.mem_cons_of_mem _ hx))]

theorem sanitizeL_idem (l : List Char) : sanitizeL (sanitizeL l) = sanitizeL l := by
  rw [sanitizeL_eq (sanitizeL l), sanitizeL_eq l]
  rw [map_eq_self_of _ _ (fun c hc => toLower_of_valid c (List.mem_filter.mp hc).2)]
  rw [List.filter_eq_self.mpr (fun c hc => (List.mem_filter.mp hc).2)]

theorem sanitizeL_append (a b : List Char) :
    sanitizeL (a ++ b) = sanitizeL a ++ sanitizeL b := by
  simp [sanitizeL_eq, List.filter_append]

theorem string_data_append (x y : String) : (x ++ y).data = x.data ++ y.data := rfl

theorem string_mk_append (a b : List Char) :
    String.mk a ++ String.mk b = String.mk (a ++ b) := rfl

theorem splitFirstDot_of_mem (l : List Char) (h : '.' ∈ l) :
    ∃ nm rest, splitFirstDot l = some (nm, rest) := by
  induction l with
  | nil => cases h
  | cons c cs ih =>
    by_cases hc : c = '.'
    · subst hc
      exact ⟨[], cs, by simp [splitFirstDot]⟩
    · have hmem : '.' ∈ cs := by
        cases List.mem_cons.mp h with
        | inl h0 => exact absurd h0.symm hc
        | inr h0 => exact h0
      obtain ⟨nm, rest, heq⟩ := ih hmem
      exact ⟨c :: nm, rest, by simp [splitFirstDot, hc, heq]⟩

theorem splitFirstDot_of_not_mem (l : List Char) (h : '.' ∉ l) :
    splitFirstDot l = none := by
  induction l with
  | nil => rfl
  | cons c cs ih =>
    have hc : ¬ c = '.' := fun hc => h (hc ▸ List.mem_cons_self c cs)
    have hcs : '.' ∉ cs := fun hm => h (List.mem_cons_of_mem _ hm)
    simp [splitFirstDot, hc, ih hcs]

theorem fetchLines_eq_matching (q : String) (store : List String)
    (h : ∀ line ∈ store, hasDot line = true) :
    fetchLines (sanitize q) store = some (matchingReviews q store) := by
  induction store with
  | nil => rfl
  | cons line rest ih =>
    have hd : '.' ∈ line.data := by
      have := h line (List.mem_cons_self line rest)
      simpa [hasDot, List.elem_iff] using this
    obtain ⟨nm, rv, heq⟩ := splitFirstDot_of_mem line.data hd
    have ihr := ih (fun x hx => h x (List.mem_cons_of_mem _ hx))
    by_cases hmatch : sanitize (String.mk (pyStrip nm)) = sanitize q
    · simp [fetchLines, heq, ihr, matchingReviews, List.filterMap_cons, hmatch]
    · simp [fetchLines, heq, ihr, matchingReviews, List.filterMap_cons, hmatch]

theorem fetchLines_of_bad_line (key : String) (store : List String)
    (h : ∃ line ∈ store, hasDot line = false) :
    fetchLines key store = none := by
  induction store with
  | nil => obtain ⟨line, hmem, _⟩ := h; cases hmem
  | cons line rest ih =>
    obtain ⟨bad, hmem, hbad⟩ := h
    cases List.mem_cons.mp hmem with
    | inl h0 =>
      subst h0
      have hnone : splitFirstDot bad.data = none := by
        apply splitFirstDot_of_not_mem
        intro hm
        have hdot : hasDot bad = true := by simpa [hasDot, List.elem_iff] using hm
        rw [hdot] at hbad
        cases hbad
      simp [fetchLines, hnone]
    | inr h0 =>
      have hrest := ih ⟨bad, h0, hbad⟩
      cases hsplit : splitFirstDot line.data with
      | none => simp [fetchLines, hsplit]
      | some p =>
        cases p with
        | mk nm rv => simp [fetchLines, hsplit, hrest]

theorem fetch_map_snd (a : String) (store : List String) :
    Option.map Prod.snd (fetch_restaurant_data a store) =
      fetchLines (sanitize a) store := by
  unfold fetch_restaurant_data
  cases fetchLines (sanitize a) store <;> rfl

theorem zipSum_eq (g : Int → Int → ℝ) : ∀ (f s : List Int),
    ((f.zip s).map (fun p => g p.1 p.2)).sum =
      ∑ i in Finset.range (min f.length s.length), g (f.getD i 0) (s.getD i 0)
  | [], s => by simp
  | a :: fs, [] => by simp
  | a :: fs, b :: ss => by
    have ih := zipSum_eq g fs ss
    rw [List.zip_cons_cons, List.map_cons, List.sum_cons, ih]
    rw [List.length_cons, List.length_cons, Nat.succ_min_succ, Finset.sum_range_succ']
    simp [add_comm]

theorem calculate_eq_specScore (name : String) (f s : List Int) :
    calculate_overall_score name f s = (name, specScore f s) := by
  unfold calculate_overall_score specScore overallScoreSum specContribution
  rw [zipSum_eq (fun a b => Real.sqrt ((a : ℝ) ^ 2 * (b : ℝ)) *
    (1 / ((min f.length s.length : ℕ) * Real.sqrt 125)) * 10) f s]

theorem getD_take (l : List Int) (n i : ℕ) (h : i < n) :
    (l.take n).getD i 0 = l.getD i 0 := by
  simp [List.getD_eq_getElem?_getD, List.getElem?_take_of_lt h]

theorem overallScoreSum_take (f s : List Int) :
    overallScoreSum (f.take (min f.length s.length)) (s.take (min f.length s.length)) =
      overallScoreSum f s := by
  unfold overallScoreSum
  have hf : (f.take (min f.length s.length)).length = min f.length s.length := by
    simp [List.length_take, Nat.min_eq_left, Nat.min_le_left]
  have hs : (s.take (min f.length s.length)).length = min f.length s.length := by
    simp [List.length_take, Nat.min_eq_left, Nat.min_le_right]
  rw [hf, hs, Nat.min_self]
  refine Finset.sum_congr rfl ?_
  intro i hi
  rw [Finset.mem_range] at hi
  rw [getD_take f _ i hi, getD_take s _ i hi]

theorem sqrt125_pos : (0 : ℝ) < Real.sqrt 125 := Real.sqrt_pos.mpr (by norm_num)

theorem round2_ten : round2 10 = 10 := by
  unfold round2
  rw [show ((10 : ℝ) * 100) = ((1000 : ℕ) : ℝ) by norm_num, round_natCast]
  norm_num

theorem round2_zero : round2 0 = 0 := by
  unfold round2
  rw [show ((0 : ℝ) * 100) = ((0 : ℕ) : ℝ) by norm_num, round_natCast]
  norm_num

theorem overallScoreSum_five : overallScoreSum [5] [5] = 10 := by
  have h125 := ne_of_gt sqrt125_pos
  unfold overallScoreSum
  rw [show min ([(5 : ℤ)].length) ([(5 : ℤ)].length) = 1 from rfl, Finset.sum_range_one]
  rw [show (((([(5 : ℤ)].getD 0 0 : ℤ)) : ℝ) ^ 2 * (([(5 : ℤ)].getD 0 0 : ℤ) : ℝ)) = 125 by
    norm_num [List.getD]]
  rw [Nat.cast_one, one_mul]
  field_simp

theorem round_monotone : Monotone (round : ℝ → ℤ) := by
  intro a b hab
  rw [round_eq, round_eq]
  exact Int.floor_le_floor (by linarith)

theorem round2_bounds (x : ℝ) (h0 : 0 ≤ x) (h10 : x ≤ 10) :
    0 ≤ round2 x ∧ round2 x ≤ 10 := by
  unfold round2
  have hlo : (0 : ℤ) ≤ round (x * 100) := by
    have h := round_monotone (show (0 : ℝ) ≤ x * 100 by nlinarith)
    rw [show round ((0 : ℝ)) = ((0 : ℕ) : ℤ) by
      rw [show ((0 : ℝ)) = ((0 : ℕ) : ℝ) by norm_num, round_natCast]] at h
    simpa using h
  have hhi : round (x * 100) ≤ 1000 := by
    have h := round_monotone (show x * 100 ≤ ((1000 : ℕ) : ℝ) by push_cast; nlinarith)
    rw [round_natCast] at h
    exact_mod_cast h
  constructor
  · positivity
  · rw [div_le_iff₀ (by norm_num : (0 : ℝ) < 100)]
    calc ((round (x * 100) : ℤ) : ℝ) ≤ ((1000 : ℤ) : ℝ) := by exact_mod_cast hhi
      _ = 10 * 100 := by norm_num

theorem getD_mem (l : List Int) (i : ℕ) (h : i < l.length) : l.getD i 0 ∈ l := by
  rw [List.getD_eq_getElem?_getD, List.getElem?_eq_getElem h]
  exact List.getElem_mem h

theorem overallScoreSum_nonneg (f s : List Int) : 0 ≤ overallScoreSum f s := by
  unfold overallScoreSum
  refine Finset.sum_nonneg ?_
  intro i _
  have h1 : (0 : ℝ) ≤ Real.sqrt (((f.getD i 0 : ℤ) : ℝ) ^ 2 * ((s.getD i 0 : ℤ) : ℝ)) :=
    Real.sqrt_nonneg _
  have h2 : (0 : ℝ) ≤ 1 / (((min f.length s.length : ℕ) : ℝ) * Real.sqrt 125) := by
    apply one_div_nonneg.mpr
    exact mul_nonneg (Nat.cast_nonneg _) (Real.sqrt_nonneg _)
  positivity

theorem overallScoreSum_le_ten (f s : List Int)
    (hf : ∀ x ∈ f, 1 ≤ x ∧ x ≤ 5) (hs : ∀ x ∈ s, 1 ≤ x ∧ x ≤ 5) :
    overallScoreSum f s ≤ 10 := by
  set N := min f.length s.length with hN
  rcases Nat.eq_zero_or_pos N with h0 | hpos
  · unfold overallScoreSum
    rw [← hN, h0]
    simp
  · have hNR : (0 : ℝ) < (N : ℝ) := by exact_mod_cast hpos
    have hterm : ∀ i ∈ Finset.range N,
        Real.sqrt (((f.getD i 0 : ℤ) : ℝ) ^ 2 * ((s.getD i 0 : ℤ) : ℝ)) *
          (1 / ((N : ℝ) * Real.sqrt 125)) * 10 ≤ 10 / (N : ℝ) := by
      intro i hi
      rw [Finset.mem_range] at hi
      have hif : i < f.length := lt_of_lt_of_le hi (hN ▸ Nat.min_le_left _ _)
      have his : i < s.length := lt_of_lt_of_le hi (hN ▸ Nat.min_le_right _ _)
      obtain ⟨hf1, hf5⟩ := hf _ (getD_mem f i hif)
      obtain ⟨hs1, hs5⟩ := hs _ (getD_mem s i his)
      have harg : ((f.getD i 0 : ℤ) : ℝ) ^ 2 * ((s.getD i 0 : ℤ) : ℝ) ≤ 125 := by
        have hfr1 : (1 : ℝ) ≤ ((f.getD i 0 : ℤ) : ℝ) := by exact_mod_cast hf1
        have hfr5 : ((f.getD i 0 : ℤ) : ℝ) ≤ 5 := by exact_mod_cast hf5
        have hsr1 : (1 : ℝ) ≤ ((s.getD i 0 : ℤ) : ℝ) := by exact_mod_cast hs1
        have hsr5 : ((s.getD i 0 : ℤ) : ℝ) ≤ 5 := by exact_mod_cast hs5
        nlinarith
      have hsqrt : Real.sqrt (((f.getD i 0 : ℤ) : ℝ) ^ 2 * ((s.getD i 0 : ℤ) : ℝ)) ≤
          Real.sqrt 125 := Real.sqrt_le_sqrt harg
      have hcoef : (0 : ℝ) ≤ 1 / ((N : ℝ) * Real.sqrt 125) :=
        one_div_nonneg.mpr (mul_nonneg (le_of_lt hNR) (Real.sqrt_nonneg _))
      calc Real.sqrt (((f.getD i 0 : ℤ) : ℝ) ^ 2 * ((s.getD i 0 : ℤ) : ℝ)) *
            (1 / ((N : ℝ) * Real.sqrt 125)) * 10
          ≤ Real.sqrt 125 * (1 / ((N : ℝ) * Real.sqrt 125)) * 10 := by
            apply mul_le_mul_of_nonneg_right _ (by norm_num)
            exact mul_le_mul_of_nonneg_right hsqrt hcoef
        _ = 10 / (N : ℝ) := by
            field_simp
            ring
    have hsum : overallScoreSum f s ≤ N * (10 / (N : ℝ)) := by
      unfold overallScoreSum
      rw [← hN]
      calc (∑ i in Finset.range N,
            Real.sqrt (((f.getD i 0 : ℤ) : ℝ) ^ 2 * ((s.getD i 0 : ℤ) : ℝ)) *
              (1 / ((N : ℝ) * Real.sqrt 125)) * 10)
          ≤ ∑ i in Finset.range N, 10 / (N : ℝ) := Finset.sum_le_sum hterm
        _ = N * (10 / (N : ℝ)) := by
            rw [Finset.sum_const, Finset.card_range, nsmul_eq_mul]
    calc overallScoreSum f s ≤ N * (10 / (N : ℝ)) := hsum
      _ = 10 := by field_simp

/-! ## Claims -/

/-- C1: For every restaurant name and every pair of integer score lists,
`calculate_overall_score` returns the single-entry mapping from the name to
`round(SUM over the first N paired elements of
sqrt(food_i^2 * service_i) * (1/(N*sqrt(125))) * 10, 2)` with
`N = min(len(food_scores), len(service_scores))`; trailing unmatched
elements of the longer list do not affect the result; and
`calculate_overall_score("X", [5], [5])` scores exactly 10.0. -/
theorem claim_C1 :
    (∀ (name : String) (f s : List Int),
      calculate_overall_score name f s = (name, specScore f s)) ∧
    (∀ (name : String) (f s : List Int),
      calculate_overall_score name (f.take (min f.length s.length))
        (s.take (min f.length s.length)) = calculate_overall_score name f s) ∧
    calculate_overall_score ("X") ([5]) ([5]) = (("X" : String), (10 : ℝ)) := by
  refine ⟨calculate_eq_specScore, ?_, ?_⟩
  · intro name f s
    unfold calculate_overall_score
    rw [overallScoreSum_take]
  · unfold calculate_overall_score
    rw [overallScoreSum_five, round2_ten]

/-- C2: When every store line contains a `.`, `fetch_restaurant_data`
returns the single-entry mapping keyed by the original, unsanitized query
name whose value is the file-ordered list of trimmed review texts of
exactly the lines whose name field sanitizes like the query name; no match
yields the empty list, not an error. -/
theorem claim_C2 (name : String) (store : List String)
    (h : ∀ line ∈ store, hasDot line = true) :
    fetch_restaurant_data name store = some (name, matchingReviews name store) := by
  unfold fetch_restaurant_data
  rw [fetchLines_eq_matching name store h]
  rfl

/-- Witness for C2 on a concrete two-line store: the hypothesis holds, the
theorem applies, and the returned list evaluates to the matching review. -/
theorem claim_C2_witness :
    (∀ line ∈ (["Subway. Great food, average service.", "McDonalds. Bad food."] :
      List String), hasDot line = true) ∧
    fetch_restaurant_data ("subway")
        (["Subway. Great food, average service.", "McDonalds. Bad food."]) =
      some (("subway" : String), matchingReviews ("subway")
        (["Subway. Great food, average service.", "McDonalds. Bad food."])) ∧
    matchingReviews ("subway")
        (["Subway. Great food, average service.", "McDonalds. Bad food."]) =
      ["Great food, average service."] :=
  ⟨by decide, claim_C2 ("subway") _ (by decide), by decide⟩

/-- C3: When either score list is empty (so `N = 0`), the loop of
`calculate_overall_score` runs zero iterations — the division
`1/(N*sqrt(125))` inside the loop body is never evaluated — and the result
is the mapping from the name to 0.0. -/
theorem claim_C3 (name : String) (f s : List Int)
    (h : min f.length s.length = 0) :
    calculate_overall_score name f s = (name, 0) := by
  unfold calculate_overall_score overallScoreSum
  rw [h]
  simp [round2_zero]

/-- Witness for C3 at `calculate_overall_score("X", [], [])`. -/
theorem claim_C3_witness :
    min ([] : List Int).length ([] : List Int).length = 0 ∧
    calculate_overall_score ("X") ([] : List Int) ([] : List Int) =
      (("X" : String), (0 : ℝ)) :=
  ⟨rfl, claim_C3 ("X") [] [] rfl⟩

/-- C4: A store containing a line without a `.` makes
`fetch_restaurant_data` fail as a whole (the `ValueError` of the unpacking
propagates, modelled as `none`) instead of skipping the malformed line. -/
theorem claim_C4 (name : String) (store : List String)
    (h : ∃ line ∈ store, hasDot line = false) :
    fetch_restaurant_data name store = none := by
  unfold fetch_restaurant_data
  rw [fetchLines_of_bad_line _ store h]
  rfl

/-- Witness for C4 on a one-line store whose line has no separator. -/
theorem claim_C4_witness :
    hasDot ("line with no separator") = false ∧
    fetch_restaurant_data ("x") (["line with no separator"]) = none :=
  ⟨by decide, claim_C4 ("x") _ ⟨"line with no separator", by decide, by decide⟩⟩

/-- C5: `main` runs exactly four chats strictly in sequence with max_turns
2, 1, 4, 1, `max_consecutive_auto_reply = 1` only on the third, last-message
summaries throughout; the review-store tool is LLM-bound only to the
retrieval stage's recipient and the aggregator tool only to the scoring
stage's recipient; and the printed answer is the fourth chat's summary
verbatim, with no post-processing. -/
theorem claim_C5 (oracle : List ChatResult → StageSpec → ChatResult) (q : String) :
    (mainChats q).length = 4 ∧
    (mainChats q).map StageSpec.max_turns = [2, 1, 4, 1] ∧
    (mainChats q).map StageSpec.max_consecutive_auto_reply =
      [none, none, some 1, none] ∧
    (mainChats q).map StageSpec.summary_method =
      [SummaryMethod.last_msg, SummaryMethod.last_msg, SummaryMethod.last_msg,
        SummaryMethod.last_msg] ∧
    (mainChats q).map (fun st => llmTools st.recipient) =
      [[ToolName.fetch_restaurant_data], [], [ToolName.calculate_overall_score], []] ∧
    main oracle q = some (oracle [oracle [] (stage1 q),
      oracle [oracle [] (stage1 q)] stage2,
      oracle [oracle [] (stage1 q), oracle [oracle [] (stage1 q)] stage2] stage3]
      stage4).summary :=
  ⟨rfl, rfl, rfl, rfl, rfl, rfl⟩

/-- C6: With all scores of both lists in [1, 5], the score returned by
`calculate_overall_score` lies in [0, 10]. -/
theorem claim_C6 (name : String) (f s : List Int)
    (hf : ∀ x ∈ f, 1 ≤ x ∧ x ≤ 5) (hs : ∀ x ∈ s, 1 ≤ x ∧ x ≤ 5) :
    0 ≤ (calculate_overall_score name f s).2 ∧
      (calculate_overall_score name f s).2 ≤ 10 := by
  unfold calculate_overall_score
  exact round2_bounds _ (overallScoreSum_nonneg f s) (overallScoreSum_le_ten f s hf hs)

/-- Witness for C6 at score lists [4] and [3]. -/
theorem claim_C6_witness :
    (∀ x ∈ ([4] : List Int), 1 ≤ x ∧ x ≤ 5) ∧
    (∀ x ∈ ([3] : List Int), 1 ≤ x ∧ x ≤ 5) ∧
    (0 ≤ (calculate_overall_score ("X") ([4]) ([3])).2 ∧
      (calculate_overall_score ("X") ([4]) ([3])).2 ≤ 10) :=
  ⟨by decide, by decide, claim_C6 ("X") [4] [3] (by decide) (by decide)⟩

/-- C7: `sanitize` is idempotent. -/
theorem claim_C7 (s : String) : sanitize (sanitize s) = sanitize s := by
  simp [sanitize, sanitizeL_idem]

/-- C8: Two query names with equal sanitizations retrieve equal review
lists (only the mapping key differs), and on the store line
`"Subway. Great food, average service."` both `"subway"` and `"SUBWAY"`
retrieve the trimmed review `"Great food, average service."`. -/
theorem claim_C8 :
    (∀ (a b : String) (store : List String), sanitize a = sanitize b →
      Option.map Prod.snd (fetch_restaurant_data a store) =
        Option.map Prod.snd (fetch_restaurant_data b store)) ∧
    fetch_restaurant_data ("subway") (["Subway. Great food, average service."]) =
      some (("subway" : String), ["Great food, average service."]) ∧
    fetch_restaurant_data ("SUBWAY") (["Subway. Great food, average service."]) =
      some (("SUBWAY" : String), ["Great food, average service."]) := by
  refine ⟨?_, by decide, by decide⟩
  intro a b store hab
  rw [fetch_map_snd, fetch_map_snd, hab]

/-- Witness for C8: applying the equal-sanitization part at two concrete
spellings of the same name over a concrete store. -/
theorem claim_C8_witness :
    sanitize ("Subway Cafe") = sanitize ("  SUBWAY  cafe") ∧
    Option.map Prod.snd (fetch_restaurant_data ("Subway Cafe")
        (["Subway Cafe. Good food."])) =
      Option.map Prod.snd (fetch_restaurant_data ("  SUBWAY  cafe")
        (["Subway Cafe. Good food."])) :=
  ⟨by decide, claim_C8.1 ("Subway Cafe") ("  SUBWAY  cafe") _ (by decide)⟩

/-- C9: `sanitize` is total, keeps only characters in [a-z0-9] (in
particular it removes every whitespace character, wherever it occurs), acts
by lowercasing then filtering, and maps `""` to `""` and
`"Chipotle Mexican Grill"` to `"chipotlemexicangrill"`. -/
theorem claim_C9 :
    (∀ s : String, ((sanitize s).data.all isValidCodeChar) = true) ∧
    (∀ s : String, (sanitize s).data = (s.data.map Char.toLower).filter isValidCodeChar) ∧
    sanitize ("") = "" ∧
    sanitize ("Chipotle Mexican Grill") = "chipotlemexicangrill" := by
  refine ⟨?_, ?_, by decide, by decide⟩
  · intro s
    rw [List.all_eq_true]
    intro c hc
    have hdata : (sanitize s).data = sanitizeL s.data := rfl
    rw [hdata, sanitizeL_eq] at hc
    exact (List.mem_filter.mp hc).2
  · intro s
    exact sanitizeL_eq s.data

/-- C10: `sanitize` distributes over string concatenation, because every
step acts character-wise and the final filter leaves nothing for the
strips to remove at the seam. -/
theorem claim_C10 (x y : String) : sanitize (x ++ y) = sanitize x ++ sanitize y := by
  simp [sanitize, string_data_append, sanitizeL_append, string_mk_append]

end RestaurantReviews
